import Mathlib

/-!
Verification development for the divvy rate-limiter rule configuration core
(`src/config.js`).  The JavaScript `Config` class is shallowly embedded:

* a JS rule object becomes the structure `Rule`, a raw rule declaration (as it
  appears in a JSON config file, before normalization) becomes `RuleSpec`;
* an "operation" (free-form key/value attribute bag) becomes an association
  list `OpMap`; an absent attribute is `Option.none`, mirroring `undefined`;
* the glob-to-regex compiler `Config.parseGlob` is embedded at the level of
  the regex it produces: after the escaping pass every character other than
  `*` denotes a literal atom, the first `*` becomes `.*`, and each later `*`
  is left in place and acts as a regex quantifier on the preceding literal
  (or raises a `SyntaxError`, embedded as `Option.none`, when it follows
  another quantifier);
* fallible JS code (`throw`) is embedded with `Except` / an explicit error
  component; the distinct `throw` sites of `config.js` are the constructors
  of `ConfigError`;
* `addRule` mutates `this` (notably, it registers the rule label *before*
  validating the match policy, and `processNewRules` clears and rebuilds the
  active config in place), so the mutating entry points are embedded as
  state-passing functions returning the post-call state even on error.
-/

set_option autoImplicit false

/-- Decidable equality of `Except` values, used to evaluate the embedded
functions on concrete inputs inside proofs. -/
instance {ε α : Type} [DecidableEq ε] [DecidableEq α] : DecidableEq (Except ε α) := fun a b =>
  match a, b with
  | Except.ok x, Except.ok y =>
    if h : x = y then isTrue (congrArg Except.ok h)
    else isFalse (fun hc => h (Except.ok.inj hc))
  | Except.error x, Except.error y =>
    if h : x = y then isTrue (congrArg Except.error h)
    else isFalse (fun hc => h (Except.error.inj hc))
  | Except.ok _, Except.error _ => isFalse (fun hc => Except.noConfusion hc)
  | Except.error _, Except.ok _ => isFalse (fun hc => Except.noConfusion hc)

/-- A rule pattern or an incoming operation: a JS object used as a map from
attribute names to string values, embedded as an association list in key
insertion order (JS object keys are unique; `Object.keys` preserves
insertion order). -/
abbrev OpMap := List (String × String)

/-- A rule as stored in `Config.rules` by `addRule` (the normalized object
literal built at the end of `addRule`). -/
structure Rule where
  operation : OpMap
  /-- `none` embeds a `creditLimit` whose `Number(...)` is `NaN`
  (e.g. the field was `undefined`). -/
  creditLimit : Option Int
  resetSeconds : Option Int
  actorField : Option String
  matchPolicy : String
  label : Option String
  comment : Option String
deriving DecidableEq, Repr

/-- Errors raised by `config.js`.  Each constructor corresponds to one
`throw` site (or, for `jsonParseError` / `regexError`, to an exception
raised by a library call: `JSON.parse` and the `RegExp` constructor). -/
inductive ConfigError where
  /-- `addRule`: "Operation must be specified." -/
  | operationMissing : ConfigError
  /-- `addRule`: "Unreachable rule for operation=...; masked by operation=...".
  The payload is the masking rule found by `findRules`. -/
  | unreachableRule : (masking : Rule) → ConfigError
  /-- `addRule`: "Invalid creditLimit for operation=...". -/
  | invalidCreditLimit : ConfigError
  /-- `addRule`: "Invalid resetSeconds for operation=...". -/
  | invalidResetSeconds : ConfigError
  /-- `addRule`: "Invalid rule label ...". -/
  | invalidLabel : ConfigError
  /-- `addRule`: "A rule with label ... already exists". -/
  | duplicateLabel : ConfigError
  /-- `addRule`: "Invalid matchPolicy ...". -/
  | invalidMatchPolicy : ConfigError
  /-- `findRules`: "Bug: Rule does not define a match policy." -/
  | noMatchPolicyBug : ConfigError
  /-- `new RegExp` rejecting the compiled glob ("nothing to repeat"). -/
  | regexError : ConfigError
  /-- `validate`: "Config does not define any rules." -/
  | noRules : ConfigError
  /-- `validate`: "Config does not define a default rule." -/
  | noDefaultRule : ConfigError
  /-- `JSON.parse` raising on malformed input (in `processNewRules`). -/
  | jsonParseError : ConfigError
deriving DecidableEq, Repr

/-- The argument object of `addRule`: a raw rule declaration.  String fields
use `none` for `undefined`/`null`; the JS-falsy empty string is `some ""`. -/
structure RuleSpec where
  operation : Option OpMap
  creditLimit : Option Int
  resetSeconds : Option Int
  actorField : Option String
  matchPolicy : Option String
  label : Option String
  comment : Option String
deriving DecidableEq, Repr

/-- The mutable state of a `Config` instance: `this.rules` and
`this.ruleLabels` (the JS `Set` is embedded as its insertion-ordered list of
distinct elements). -/
structure Config where
  rules : List Rule
  ruleLabels : List String
deriving DecidableEq, Repr

/-- Modelled from the spec: `Constants.MATCH_POLICY_STOP` lives in
`src/constants.js`, which is not part of the sources; the spec defines the
`matchPolicy` enum as `{stop, canary}`. -/
def MATCH_POLICY_STOP : String := "stop"

/-- Modelled from the spec: `Constants.MATCH_POLICY_CANARY`, see
`MATCH_POLICY_STOP`. -/
def MATCH_POLICY_CANARY : String := "canary"

/-- JS string truthiness as used by `addRule` (`label || null`,
`if (matchPolicy)`, ...): `undefined`, `null` and `""` are falsy. -/
def presentStr : Option String → Option String
  | none => none
  | some s => if s = "" then none else some s

/-- `RULE_LABEL_REGEX = /^[a-zA-Z0-9_-]{1,255}$/`. -/
def labelValid (l : String) : Bool :=
  1 ≤ l.length && l.length ≤ 255 &&
    l.data.all (fun c => c.isAlphanum || c = '_' || c = '-')

/-- `isGlobValue(v)`: `v.match(/\*/)` is truthy iff `v` contains `*`. -/
def isGlobValue (v : String) : Bool :=
  v.data.contains '*'

/-- One atom of the regex produced by `Config.parseGlob`:
a literal character (either plain or escaped by the
`REGEX_ESCAPE_CHARACTERS` pass — escaping only changes spelling, not
meaning), the `.*` produced from the first `*`, or `c*` — a later `*` left
in place, acting as a zero-or-more quantifier on the preceding literal. -/
inductive GlobAtom where
  | lit : (c : Char) → GlobAtom
  | anyStar : GlobAtom
  | starChar : (c : Char) → GlobAtom
deriving DecidableEq, Repr

/-- Worker for `parseGlob`: scans the glob string; `seen` records whether the
first `*` has already been replaced, `acc` holds the atoms in reverse.
A `*` that follows no literal (i.e. follows `.*`, another quantifier, or
nothing at all) yields `none`: the `RegExp` constructor raises
`SyntaxError: nothing to repeat` on the compiled source. -/
def parseGlobGo : List Char → Bool → List GlobAtom → Option (List GlobAtom)
  | [], _, acc => some acc.reverse
  | c :: rest, seen, acc =>
    if c = '*' then
      if seen then
        match acc with
        | GlobAtom.lit d :: acc2 => parseGlobGo rest true (GlobAtom.starChar d :: acc2)
        | _ => none
      else parseGlobGo rest true (GlobAtom.anyStar :: acc)
    else parseGlobGo rest seen (GlobAtom.lit c :: acc)

/-- `Config.parseGlob(ruleValue)`: escape all regex metacharacters except
`*` (making every non-`*` character a literal), replace the **first** `*`
with `.*` (`String.replace` with a string argument replaces only the first
occurrence), and wrap in `^...` (no `$`).  Embedded as the atom list of the
produced regex; the leading `^` is embedded in `regexTest` below. -/
def parseGlob (ruleValue : String) : Option (List GlobAtom) :=
  parseGlobGo ruleValue.data false []

/-- All suffixes of a character list, longest first: the ways `.*` can
split the remaining subject. -/
def suffixes : List Char → List (List Char)
  | [] => [[]]
  | x :: xs => (x :: xs) :: suffixes xs

/-- The suffixes `c*` can leave: drop zero or more leading copies of `c`. -/
def starSuffixes (c : Char) : List Char → List (List Char)
  | [] => [[]]
  | x :: xs => (x :: xs) :: (if c == x then starSuffixes c xs else [])

/-- Regex acceptance for an atom list against (a suffix of) the subject:
`true` iff the atoms match some prefix of `s`.  Because the compiled regex
is anchored with `^` and not `$`-anchored, `RegExp.test` succeeds iff the
atoms match some prefix of the subject; the trailing "rest" of the subject
is unconstrained, which is the `[], _ => true` case.  `.*` may consume any
prefix (leaving any suffix), `c*` may consume any run of `c`s. -/
def atomsAccept : List GlobAtom → List Char → Bool
  | [], _ => true
  | GlobAtom.lit _ :: _, [] => false
  | GlobAtom.lit c :: as, x :: xs => c == x && atomsAccept as xs
  | GlobAtom.anyStar :: as, s => (suffixes s).any (fun t => atomsAccept as t)
  | GlobAtom.starChar c :: as, s => (starSuffixes c s).any (fun t => atomsAccept as t)

/-- `regex.test(v)` for the `^`-anchored compiled glob. -/
def regexTest (atoms : List GlobAtom) (v : String) : Bool :=
  atomsAccept atoms v.data

/-- JS string coercion performed by `RegExp.test` on its argument:
`String(undefined)` is `"undefined"`. -/
def undefAsString : Option String → String
  | none => "undefined"
  | some s => s

/-- The per-key test of the matching loop in `findRules` (lines 316-323):
`'*'` always matches; a glob value is compiled with `parseGlob` (raising at
match time if the compiled regex is invalid) and tested against the coerced
operation value; any other value requires strict equality (`===`), which an
absent (`undefined`) operation value never satisfies. -/
def matchValue (patternValue : String) (actual : Option String) : Except ConfigError Bool :=
  if patternValue = "*" then Except.ok true
  else if isGlobValue patternValue then
    match parseGlob patternValue with
    | none => Except.error ConfigError.regexError
    | some atoms => Except.ok (regexTest atoms (undefAsString actual))
  else Except.ok (actual == some patternValue)

/-- The inner key loop of `findRules`: a rule matches iff every key of its
pattern matches; the loop breaks at the first failing key, so later keys
(and their glob compilation) are not evaluated. -/
def keysMatch : List (String × String) → OpMap → Except ConfigError Bool
  | [], _ => Except.ok true
  | (k, pv) :: rest, op =>
    match matchValue pv (op.lookup k) with
    | Except.error e => Except.error e
    | Except.ok false => Except.ok false
    | Except.ok true => keysMatch rest op

/-- The rule loop of `findRules`: `acc` is the `result` array.  A rule with
a falsy `matchPolicy` raises; a matching rule is pushed; a matching rule
whose policy is `stop` ends the loop. -/
def findRulesGo : List Rule → OpMap → List Rule → Except ConfigError (List Rule)
  | [], _, acc => Except.ok acc
  | r :: rest, op, acc =>
    if r.matchPolicy = "" then Except.error ConfigError.noMatchPolicyBug
    else
      match keysMatch r.operation op with
      | Except.error e => Except.error e
      | Except.ok false => findRulesGo rest op acc
      | Except.ok true =>
        if r.matchPolicy = MATCH_POLICY_STOP then Except.ok (acc ++ [r])
        else findRulesGo rest op (acc ++ [r])

/-- `Config.findRules(operation)`. -/
def Config.findRules (c : Config) (op : OpMap) : Except ConfigError (List Rule) :=
  findRulesGo c.rules op []

/-- `Number.isNaN(Number(resetSeconds)) || resetSeconds < 1`. -/
def resetBad : Option Int → Bool
  | none => true
  | some rs => decide (rs < 1)

/-- The normalized rule object literal pushed at the end of `addRule`. -/
def mkRuleFromSpec (s : RuleSpec) (op : OpMap) : Rule :=
  { operation := op
    creditLimit := s.creditLimit
    resetSeconds := s.resetSeconds
    actorField := presentStr s.actorField
    matchPolicy := (presentStr s.matchPolicy).getD MATCH_POLICY_STOP
    label := presentStr s.label
    comment := presentStr s.comment }

/-- Tail of `addRule` (lines 261-283): the `matchPolicy` switch, then the
push of the normalized rule.  Note this runs *after* the label has been
recorded, so an invalid policy leaves the label registered. -/
def finishRule (c : Config) (s : RuleSpec) (op : OpMap) : Option ConfigError × Config :=
  match presentStr s.matchPolicy with
  | some p =>
    if p = MATCH_POLICY_STOP ∨ p = MATCH_POLICY_CANARY then
      (none, { c with rules := c.rules ++ [mkRuleFromSpec s op] })
    else (some ConfigError.invalidMatchPolicy, c)
  | none => (none, { c with rules := c.rules ++ [mkRuleFromSpec s op] })

/-- `Config.addRule(ruleSpec)` as a state transformer: returns the error
raised (if any) together with the post-call state of `this` (on a thrown
error the state is whatever had been mutated so far). -/
def Config.addRuleSt (c : Config) (s : RuleSpec) : Option ConfigError × Config :=
  match s.operation with
  | none => (some ConfigError.operationMissing, c)
  | some op =>
    match c.findRules op with
    | Except.error e => (some e, c)
    | Except.ok found =>
      match found.find? (fun r => r.matchPolicy == MATCH_POLICY_STOP) with
      | some masking => (some (ConfigError.unreachableRule masking), c)
      | none =>
        match s.creditLimit with
        | none => (some ConfigError.invalidCreditLimit, c)
        | some cl =>
          if cl < 0 then (some ConfigError.invalidCreditLimit, c)
          else if 0 < cl ∧ resetBad s.resetSeconds then
            (some ConfigError.invalidResetSeconds, c)
          else
            match presentStr s.label with
            | some l =>
              if labelValid l = false then (some ConfigError.invalidLabel, c)
              else if c.ruleLabels.contains l then (some ConfigError.duplicateLabel, c)
              else finishRule { c with ruleLabels := c.ruleLabels ++ [l] } s op
            | none => finishRule c s op

/-- `Config.addRule` viewed as a fallible function (exception propagates,
post-error state discarded) — the view taken by the loaders, which abort
construction entirely on the first error. -/
def Config.addRule (c : Config) (s : RuleSpec) : Except ConfigError Config :=
  match Config.addRuleSt c s with
  | (some e, _) => Except.error e
  | (none, c2) => Except.ok c2

/-- `Config.validate()`: some rule must exist and the last rule must have an
empty pattern. -/
def Config.validate (c : Config) : Option ConfigError :=
  match c.rules.getLast? with
  | none => some ConfigError.noRules
  | some lastRule =>
    if lastRule.operation = ([] : OpMap) then none
    else some ConfigError.noDefaultRule

/-- `new Config()`. -/
def Config.new : Config := { rules := [], ruleLabels := [] }

/-- The `forEach`/`addRule` loop shared by the loaders, abort-on-error
view. -/
def buildRules (c : Config) (specs : List RuleSpec) : Except ConfigError Config :=
  specs.foldlM Config.addRule c

/-- Construction plus final validation: repeated `addRule` from a fresh
`Config`, then `validate` — the common core of `fromJsonFile`,
`fromIniFile` and `processNewRules`. -/
def configFromSpecs (specs : List RuleSpec) : Except ConfigError Config :=
  match buildRules Config.new specs with
  | Except.error e => Except.error e
  | Except.ok c =>
    match c.validate with
    | some e => Except.error e
    | none => Except.ok c

/-- Modelled from the spec: `Utils.stringifyObjectValues` lives in
`src/utils.js`, which is not part of the sources.  Per the spec, the loaders
normalize each raw declaration's values to strings, and the one declaration
without an `operation` field (the default) yields the empty pattern; on a
pattern whose values are already strings it is the identity. -/
def stringifyObjectValues : Option OpMap → OpMap
  | none => []
  | some m => m

/-- The rule-spec object literal built inside the loaders' `forEach`
(`fromJsonFile` lines 150-158, identically in `processNewRules`). -/
def specOfRaw (r : RuleSpec) : RuleSpec :=
  { r with operation := some (stringifyObjectValues r.operation) }

/-- The parsed shape of a JSON config file: `{overrides: [...], default: {...}}`. -/
structure RawConfig where
  overrides : List RuleSpec
  default : Option RuleSpec
deriving DecidableEq, Repr

/-- `Config.fromJsonFile` on an already-parsed raw config, with the
zookeeper dynamic source disabled (reading and JSON-parsing the file are
outside this core): push `rawConfig.default` after the overrides, run the
`addRule` loop, validate. -/
def fromRawConfig (raw : RawConfig) : Except ConfigError Config :=
  let decls := raw.overrides ++ (match raw.default with | some d => [d] | none => [])
  configFromSpecs (decls.map specOfRaw)

/-- The spec view of a stored rule: `toJson` serializes the stored rule
object itself, whose fields re-parse to exactly these raw values. -/
def ruleToSpec (r : Rule) : RuleSpec :=
  { operation := some r.operation
    creditLimit := r.creditLimit
    resetSeconds := r.resetSeconds
    actorField := r.actorField
    matchPolicy := some r.matchPolicy
    label := r.label
    comment := r.comment }

/-- `Config.toJson()` at the level of the structured value it serializes:
walk the rules in order; a rule with an empty pattern is written to
`data.default` (a later one overwrites an earlier one), every other rule is
appended to `data.overrides`. -/
def toJsonData (c : Config) : RawConfig :=
  c.rules.foldl
    (fun acc r =>
      if r.operation = ([] : OpMap) then { acc with default := some (ruleToSpec r) }
      else { acc with overrides := acc.overrides ++ [ruleToSpec r] })
    { overrides := [], default := none }

/-- Serialize then reload: `fromJsonFile` applied to the `toJson` output
(JSON text encoding/decoding of the structured value is the identity on
this shape). -/
def roundTrip (c : Config) : Except ConfigError Config :=
  fromRawConfig (toJsonData c)

/-- The `forEach`/`addRule` loop as run by `processNewRules`: the loop stops
at the first thrown error but the mutations made so far persist on the
shared `config` object. -/
def addAllSt : Config → List RuleSpec → Option ConfigError × Config
  | c, [] => (none, c)
  | c, s :: rest =>
    match Config.addRuleSt c s with
    | (some e, c2) => (some e, c2)
    | (none, c2) => addAllSt c2 rest

/-- `Config.processNewRules(rules, config)`, the dynamic-reload cycle, as a
state transformer on the active config.  Inputs beyond the active state:
whether the static config file is an `.ini` file; the result of
`JSON.parse` on the static file (`none` = parse error); and the result of
`JSON.parse` on the data fetched from zookeeper (`none` = parse error).
Faithful to the source order: the static file is parsed first (a failure
there leaves the config untouched), then `config.rules`/`config.ruleLabels`
are cleared *in place*, then the fetched data is parsed, the fetched rules
are `unshift`ed one by one onto the overrides (which reverses their
relative order), the default is pushed last, and the `addRule` loop and
`validate` run on the same, already-cleared config object. -/
def processNewRules (c : Config) (isIni : Bool) (staticData : Option RawConfig)
    (dynData : Option (List RuleSpec)) : Option ConfigError × Config :=
  if isIni then (none, c)
  else
    match staticData with
    | none => (some ConfigError.jsonParseError, c)
    | some rawConfig =>
      let c1 : Config := Config.new
      match dynData with
      | none => (some ConfigError.jsonParseError, c1)
      | some dynRules =>
        let overrides := dynRules.reverse ++ rawConfig.overrides
        let decls := overrides ++ (match rawConfig.default with | some d => [d] | none => [])
        match addAllSt c1 (decls.map specOfRaw) with
        | (some e, c2) => (some e, c2)
        | (none, c2) =>
          match c2.validate with
          | some e => (some e, c2)
          | none => (none, c2)

/-! ## Concrete fixtures used by the theorems below -/

/-- The mandatory default declaration: empty pattern, no explicit policy. -/
def defaultSpec : RuleSpec :=
  { operation := some [], creditLimit := some 1, resetSeconds := some 1,
    actorField := none, matchPolicy := none, label := none, comment := none }

/-- The stored rule `addRule` builds from `defaultSpec`. -/
def defaultRule : Rule :=
  { operation := [], creditLimit := some 1, resetSeconds := some 1,
    actorField := none, matchPolicy := MATCH_POLICY_STOP, label := none, comment := none }

/-- The active config holding just the default rule. -/
def defaultConfig : Config := { rules := [defaultRule], ruleLabels := [] }

/-- An empty-pattern rule declaration with `matchPolicy: "canary"`. -/
def emptyCanarySpec : RuleSpec :=
  { defaultSpec with matchPolicy := some MATCH_POLICY_CANARY }

/-- The stored rule built from `emptyCanarySpec`. -/
def emptyCanaryRule : Rule :=
  { defaultRule with matchPolicy := MATCH_POLICY_CANARY }

/-- The config built from `[emptyCanarySpec, defaultSpec]`. -/
def emptyCanaryConfig : Config := { rules := [emptyCanaryRule, defaultRule], ruleLabels := [] }

/-- A `stop` declaration whose pattern is `{op: "x"}`. -/
def opXSpec : RuleSpec :=
  { defaultSpec with operation := some [("op", "x")], matchPolicy := some MATCH_POLICY_STOP }

/-- A declaration rejected by limit validation (`creditLimit: -1`). -/
def badCreditSpec : RuleSpec :=
  { defaultSpec with operation := some [("k", "x")], creditLimit := some (-1) }

/-- The default declaration as it appears raw in a JSON file: no
`operation` field at all. -/
def rawDefaultDecl : RuleSpec :=
  { defaultSpec with operation := none }

/-- A parsed static JSON config file: no overrides, just the default. -/
def staticRawConfig : RawConfig := { overrides := [], default := some rawDefaultDecl }

/-- A stored `stop` rule whose pattern is the glob `{k: "un*"}`. -/
def unGlobRule : Rule :=
  { defaultRule with operation := [("k", "un*")] }

/-- A config holding just `unGlobRule`. -/
def unGlobConfig : Config := { rules := [unGlobRule], ruleLabels := [] }

/-- The declaration a stored rule re-enters the loader with after a
serialize/reload round trip: its `toJson` spec view, re-normalized by the
loader (`stringifyObjectValues` on the already-string pattern). -/
def respec (r : Rule) : RuleSpec := specOfRaw (ruleToSpec r)

/-! ## Glob compilation lemmas -/

/-- Scanning a run of non-`*` characters accumulates literal atoms. -/
lemma parseGlobGo_lits (xs : List Char) (rest : List Char) (seen : Bool)
    (acc : List GlobAtom) (hxs : '*' ∉ xs) :
    parseGlobGo (xs ++ rest) seen acc =
      parseGlobGo rest seen ((xs.reverse.map GlobAtom.lit) ++ acc) := by
  induction xs generalizing acc with
  | nil => simp
  | cons x t ih =>
    have hx : x ≠ '*' := by
      intro h
      exact hxs (by simp [h])
    have ht : '*' ∉ t := fun h => hxs (List.mem_cons_of_mem _ h)
    simp only [List.cons_append, parseGlobGo, if_neg hx]
    show parseGlobGo (t ++ rest) seen (GlobAtom.lit x :: acc) = _
    rw [ih (GlobAtom.lit x :: acc) ht]
    simp

/-- Every list is its own (longest) suffix. -/
lemma self_mem_suffixes (s : List Char) : s ∈ suffixes s := by
  cases s with
  | nil => simp [suffixes]
  | cons x xs => simp [suffixes]

/-- Every list is its own (longest) `starSuffixes` element. -/
lemma self_mem_starSuffixes (c : Char) (s : List Char) : s ∈ starSuffixes c s := by
  cases s with
  | nil => simp [starSuffixes]
  | cons x xs => simp [starSuffixes]

/-- `.*` consumes any remainder: a trailing `anyStar` atom always accepts. -/
lemma atomsAccept_anyStar (s : List Char) :
    atomsAccept [GlobAtom.anyStar] s = true := by
  rw [show atomsAccept [GlobAtom.anyStar] s
      = (suffixes s).any (fun t => atomsAccept [] t) from rfl]
  rw [List.any_eq_true]
  exact ⟨s, self_mem_suffixes s, rfl⟩

/-- Acceptance for `^lits.*`: literal atoms followed by `anyStar` accept
exactly the strings having the literals as a prefix. -/
lemma atomsAccept_lits_anyStar (xs : List Char) (v : List Char) :
    atomsAccept (xs.map GlobAtom.lit ++ [GlobAtom.anyStar]) v = xs.isPrefixOf v := by
  induction xs generalizing v with
  | nil => simp [List.isPrefixOf, atomsAccept_anyStar]
  | cons x t ih =>
    cases v with
    | nil => simp [atomsAccept, List.isPrefixOf]
    | cons y ys => simp [atomsAccept, List.isPrefixOf, ih]

/-- Compiling a pattern of the shape `lits*` (no other `*`). -/
lemma parseGlob_lits_star (p : String) (xs : List Char)
    (hd : p.data = xs ++ ['*']) (hxs : '*' ∉ xs) :
    parseGlob p = some (xs.map GlobAtom.lit ++ [GlobAtom.anyStar]) := by
  unfold parseGlob
  rw [hd, parseGlobGo_lits xs ['*'] false [] hxs]
  simp [parseGlobGo, List.map_reverse]

/-- A member makes `List.contains` true. -/
lemma contains_of_mem {l : List Char} {a : Char} (h : a ∈ l) : l.contains a = true := by
  simp [List.contains, List.elem_eq_mem]
  exact h

/-- Claim C3: for a pattern-value containing `*`, the compiled matcher
treats every non-`*` character as a literal (regex metacharacters are
escaped), translates the first `*` into "match any characters", and is
anchored only at the start of the value: a pattern of shape `lits*`
matches exactly the values having `lits` as a prefix.  In particular
`"/files/*"` matches `"/files/readme.txt"` and `"/files/"` itself. -/
theorem C3_glob_prefix_matching :
    (∀ (p : String) (xs : List Char), p.data = xs ++ ['*'] → '*' ∉ xs →
      parseGlob p = some (xs.map GlobAtom.lit ++ [GlobAtom.anyStar]) ∧
      ∀ v : String, matchValue p (some v) = Except.ok (xs.isPrefixOf v.data)) ∧
    matchValue "/files/*" (some "/files/readme.txt") = Except.ok true ∧
    matchValue "/files/*" (some "/files/") = Except.ok true := by
  refine ⟨?_, by decide, by decide⟩
  intro p xs hd hxs
  have hparse := parseGlob_lits_star p xs hd hxs
  refine ⟨hparse, ?_⟩
  intro v
  by_cases hstar : p = "*"
  · have hxsnil : xs = [] := by
      have : xs ++ ['*'] = ['*'] := by rw [← hd, hstar]
      simpa using this
    subst hxsnil
    simp [hstar, matchValue, List.isPrefixOf]
  · have hglob : isGlobValue p = true := by
      unfold isGlobValue
      exact contains_of_mem (by rw [hd]; simp)
    rw [matchValue, if_neg hstar, if_pos hglob, hparse]
    show Except.ok (atomsAccept (xs.map GlobAtom.lit ++ [GlobAtom.anyStar]) v.data) = _
    rw [atomsAccept_lits_anyStar]

/-- Witness for C3 at a concrete pattern. -/
theorem C3_witness :
    parseGlob "ab*" = some [GlobAtom.lit 'a', GlobAtom.lit 'b', GlobAtom.anyStar] ∧
    matchValue "ab*" (some "abc") = Except.ok (['a', 'b'].isPrefixOf "abc".data) := by
  have h := C3_glob_prefix_matching.1 "ab*" ['a', 'b'] rfl (by decide)
  exact ⟨h.1, h.2 "abc"⟩

/-- A trailing `starChar` atom always accepts (it may consume nothing and
the regex is not end-anchored). -/
lemma atomsAccept_starChar (b : Char) (s : List Char) :
    atomsAccept [GlobAtom.starChar b] s = true := by
  rw [show atomsAccept [GlobAtom.starChar b] s
      = (starSuffixes b s).any (fun t => atomsAccept [] t) from rfl]
  rw [List.any_eq_true]
  exact ⟨s, self_mem_starSuffixes b s, rfl⟩

/-- A trailing `anyStar, starChar` pair accepts any remainder. -/
lemma atomsAccept_anyStar_starChar (b : Char) (s : List Char) :
    atomsAccept [GlobAtom.anyStar, GlobAtom.starChar b] s = true := by
  rw [show atomsAccept [GlobAtom.anyStar, GlobAtom.starChar b] s
      = (suffixes s).any (fun t => atomsAccept [GlobAtom.starChar b] t) from rfl]
  rw [List.any_eq_true]
  exact ⟨s, self_mem_suffixes s, atomsAccept_starChar b s⟩

/-- Claim C9: a `*` after the first is left unescaped and unreplaced by the
compiler, so it acts as a regex zero-or-more quantifier on the preceding
character: a pattern `a*b*` compiles to `^a.*b*` and matches exactly the
values starting with `a` — including values containing no `b` at all. -/
theorem C9_later_star_quantifies :
    ∀ (a b : Char), a ≠ '*' → b ≠ '*' →
      parseGlob (String.mk [a, '*', b, '*']) =
        some [GlobAtom.lit a, GlobAtom.anyStar, GlobAtom.starChar b] ∧
      ∀ v : String, matchValue (String.mk [a, '*', b, '*']) (some v) =
        Except.ok (v.data.head? == some a) := by
  intro a b ha hb
  have hparse : parseGlob (String.mk [a, '*', b, '*']) =
      some [GlobAtom.lit a, GlobAtom.anyStar, GlobAtom.starChar b] := by
    simp [parseGlob, parseGlobGo, ha, hb]
  refine ⟨hparse, ?_⟩
  intro v
  have hstar : String.mk [a, '*', b, '*'] ≠ "*" := by
    intro h
    have h2 : [a, '*', b, '*'] = ['*'] := congrArg String.data h
    exact absurd h2 (by simp)
  have hglob : isGlobValue (String.mk [a, '*', b, '*']) = true :=
    contains_of_mem (by simp)
  rw [matchValue, if_neg hstar, if_pos hglob, hparse]
  show Except.ok (atomsAccept [GlobAtom.lit a, GlobAtom.anyStar, GlobAtom.starChar b] v.data) = _
  cases hv : v.data with
  | nil => rfl
  | cons x xs =>
    rw [show atomsAccept [GlobAtom.lit a, GlobAtom.anyStar, GlobAtom.starChar b] (x :: xs)
        = ((a == x) && atomsAccept [GlobAtom.anyStar, GlobAtom.starChar b] xs) from rfl]
    rw [atomsAccept_anyStar_starChar, Bool.and_true]
    rw [show ((x :: xs).head? == some a) = (x == a) from rfl]
    by_cases hax : a = x
    · subst hax
      rfl
    · rw [beq_eq_false_iff_ne.mpr hax, beq_eq_false_iff_ne.mpr (Ne.symm hax)]

/-- Witness for C9: `a*b*` matches `"aX"`, which contains no `b`. -/
theorem C9_witness :
    matchValue (String.mk ['a', '*', 'b', '*']) (some "aX") = Except.ok true ∧
    'b' ∉ "aX".data := by
  have h := (C9_later_star_quantifies 'a' 'b' (by decide) (by decide)).2 "aX"
  exact ⟨by rw [h]; rfl, by decide⟩

/-- Claim C8: when a pattern-value is a glob and the operation lacks the
attribute, the compiled regex is tested against the string coercion of
`undefined`, i.e. `"undefined"`, rather than failing the key; in
particular the rule pattern `{k: "un*"}` matches an operation with no
key `k` at all. -/
theorem C8_absent_key_tests_undefined :
    (∀ (pv : String) (atoms : List GlobAtom), pv ≠ "*" → isGlobValue pv = true →
      parseGlob pv = some atoms →
      matchValue pv none = Except.ok (regexTest atoms "undefined")) ∧
    unGlobConfig.findRules [] = Except.ok [unGlobRule] := by
  constructor
  · intro pv atoms h1 h2 h3
    rw [matchValue, if_neg h1, if_pos h2, h3]
    rfl
  · rfl

/-- Witness for C8 at the concrete glob `"un*"`. -/
theorem C8_witness :
    matchValue "un*" none =
      Except.ok (regexTest [GlobAtom.lit 'u', GlobAtom.lit 'n', GlobAtom.anyStar] "undefined") :=
  C8_absent_key_tests_undefined.1 "un*"
    [GlobAtom.lit 'u', GlobAtom.lit 'n', GlobAtom.anyStar] (by decide) rfl rfl

/-! ## Matching-order claims -/

/-- Claim C5: with rules `[A(canary), B(stop), ...]` and both A and B
matching, `findRules` returns exactly `[A, B]` in that order, without
evaluating any rule after B (the trailing rules are arbitrary and do not
influence the result); with exactly the rules `[A(stop), B(stop)]` and A
matching, the result is exactly `[A]`. -/
theorem C5_canary_accumulation_first_match :
    (∀ (c : Config) (A B : Rule) (rest : List Rule) (op : OpMap),
      c.rules = A :: B :: rest →
      A.matchPolicy = MATCH_POLICY_CANARY → B.matchPolicy = MATCH_POLICY_STOP →
      keysMatch A.operation op = Except.ok true → keysMatch B.operation op = Except.ok true →
      c.findRules op = Except.ok [A, B]) ∧
    (∀ (c : Config) (A B : Rule) (op : OpMap),
      c.rules = [A, B] →
      A.matchPolicy = MATCH_POLICY_STOP → B.matchPolicy = MATCH_POLICY_STOP →
      keysMatch A.operation op = Except.ok true → keysMatch B.operation op = Except.ok true →
      c.findRules op = Except.ok [A]) := by
  constructor
  · intro c A B rest op hr hA hB hmA hmB
    rw [Config.findRules, hr]
    rw [findRulesGo, if_neg (by rw [hA]; decide), hmA]
    rw [if_neg (by rw [hA]; decide)]
    show findRulesGo (B :: rest) op ([] ++ [A]) = Except.ok [A, B]
    rw [findRulesGo, if_neg (by rw [hB]; decide), hmB]
    rw [if_pos hB]
    rfl
  · intro c A B op hr hA hB hmA _
    rw [Config.findRules, hr]
    rw [findRulesGo, if_neg (by rw [hA]; decide), hmA]
    rw [if_pos hA]
    rfl

/-- Witness for C5 on concrete rules and an operation matching both. -/
theorem C5_witness :
    Config.findRules { rules := [emptyCanaryRule, defaultRule, unGlobRule], ruleLabels := [] } [] =
      Except.ok [emptyCanaryRule, defaultRule] ∧
    Config.findRules { rules := [defaultRule, unGlobRule], ruleLabels := [] } [] =
      Except.ok [defaultRule] := by
  constructor
  · exact C5_canary_accumulation_first_match.1 _ emptyCanaryRule defaultRule [unGlobRule] []
      rfl rfl rfl rfl rfl
  · exact C5_canary_accumulation_first_match.2 _ defaultRule unGlobRule []
      rfl rfl rfl rfl (by decide)

/-- If the rule list ends in an empty-pattern `stop` rule, a normal return
of the rule loop is never the empty array: either an earlier `stop` match
already put a rule into the result, or the loop reaches the final rule,
which matches vacuously and is pushed. -/
lemma findRulesGo_ok_ne_nil (rules : List Rule) (lr : Rule) (op : OpMap) :
    ∀ (acc l : List Rule), rules.getLast? = some lr → lr.operation = [] →
    lr.matchPolicy = MATCH_POLICY_STOP →
    findRulesGo rules op acc = Except.ok l → l ≠ [] := by
  induction rules with
  | nil =>
    intro acc l hlast
    simp at hlast
  | cons r rest ih =>
    intro acc l hlast hop hpol hrun
    cases rest with
    | nil =>
      have hr : r = lr := by simpa using hlast
      subst hr
      rw [findRulesGo, if_neg (by rw [hpol]; decide), hop] at hrun
      rw [show keysMatch [] op = Except.ok true from rfl] at hrun
      simp [hpol] at hrun
      intro hlnil
      rw [hlnil] at hrun
      simp at hrun
    | cons r2 rest2 =>
      have hlast2 : (r2 :: rest2).getLast? = some lr := by
        rw [← List.getLast?_cons_cons]
        exact hlast
      rw [findRulesGo] at hrun
      by_cases hpr : r.matchPolicy = ""
      · rw [if_pos hpr] at hrun
        exact absurd hrun (by simp)
      · rw [if_neg hpr] at hrun
        cases hkm : keysMatch r.operation op with
        | error e =>
          rw [hkm] at hrun
          exact absurd hrun (by simp)
        | ok b =>
          rw [hkm] at hrun
          cases b with
          | false => exact ih acc l hlast2 hop hpol hrun
          | true =>
            by_cases hstop : r.matchPolicy = MATCH_POLICY_STOP
            · rw [if_pos hstop] at hrun
              have h2 : Except.ok (acc ++ [r]) = Except.ok l := hrun
              intro hlnil
              rw [hlnil] at h2
              simp at h2
            · rw [if_neg hstop] at hrun
              exact ih (acc ++ [r]) l hlast2 hop hpol hrun

/-- Claim C4: for every rule set whose last rule has an empty pattern and
matchPolicy `stop`, and for every operation, a normal (non-throwing) run of
`findRules` returns a non-empty sequence. -/
theorem C4_default_guarantees_nonempty :
    ∀ (c : Config) (lr : Rule) (op : OpMap) (l : List Rule),
      c.rules.getLast? = some lr → lr.operation = [] → lr.matchPolicy = MATCH_POLICY_STOP →
      c.findRules op = Except.ok l → l ≠ [] :=
  fun c lr op l hlast hop hpol hrun =>
    findRulesGo_ok_ne_nil c.rules lr op [] l hlast hop hpol hrun

/-- Witness for C4 on the one-rule default config and an arbitrary
operation it knows nothing about. -/
theorem C4_witness :
    defaultConfig.findRules [("endpoint", "/x")] = Except.ok [defaultRule] ∧
    [defaultRule] ≠ ([] : List Rule) :=
  ⟨by decide, C4_default_guarantees_nonempty defaultConfig defaultRule [("endpoint", "/x")]
      [defaultRule] rfl rfl rfl (by decide)⟩

/-! ## Inversion and introduction lemmas for `addRule` -/

/-- JS truthiness normalization is idempotent. -/
lemma presentStr_idem (o : Option String) : presentStr (presentStr o) = presentStr o := by
  cases o with
  | none => rfl
  | some s =>
    by_cases h : s = "" <;> simp [presentStr, h]

/-- A successful `finishRule` (policy switch plus push) appends exactly the
normalized rule and leaves the labels alone, and the pushed rule's policy is
one of the two recognized values. -/
lemma finishRule_ok (c : Config) (s : RuleSpec) (op : OpMap) (c2 : Config)
    (h : finishRule c s op = (none, c2)) :
    c2 = { c with rules := c.rules ++ [mkRuleFromSpec s op] } ∧
    (presentStr s.matchPolicy = none ∨
      ∃ p, presentStr s.matchPolicy = some p ∧
        (p = MATCH_POLICY_STOP ∨ p = MATCH_POLICY_CANARY)) := by
  unfold finishRule at h
  cases hmp : presentStr s.matchPolicy with
  | none =>
    simp only [hmp] at h
    injection h with h1 h2
    exact ⟨h2.symm, Or.inl rfl⟩
  | some p =>
    simp only [hmp] at h
    by_cases hv : p = MATCH_POLICY_STOP ∨ p = MATCH_POLICY_CANARY
    · rw [if_pos hv] at h
      injection h with h1 h2
      exact ⟨h2.symm, Or.inr ⟨p, rfl, hv⟩⟩
    · rw [if_neg hv] at h
      injection h with h1 h2
      exact absurd h1 (by simp)

/-- Introduction form of `finishRule`: a recognized (or absent) policy
pushes the normalized rule. -/
lemma finishRule_push (c : Config) (t : RuleSpec) (op : OpMap)
    (hpol : presentStr t.matchPolicy = none ∨
      ∃ p, presentStr t.matchPolicy = some p ∧
        (p = MATCH_POLICY_STOP ∨ p = MATCH_POLICY_CANARY)) :
    finishRule c t op = (none, { c with rules := c.rules ++ [mkRuleFromSpec t op] }) := by
  unfold finishRule
  rcases hpol with hn | ⟨p, hp, hv⟩
  · simp only [hn]
  · simp only [hp]
    rw [if_pos hv]

/-- Full inversion of a successful `addRule` call: every validation step
passed, the labels were extended exactly when a (truthy) label was given,
and the normalized rule was appended last. -/
lemma addRuleSt_ok_inv (c : Config) (s : RuleSpec) (c2 : Config)
    (h : Config.addRuleSt c s = (none, c2)) :
    ∃ op found,
      s.operation = some op ∧
      c.findRules op = Except.ok found ∧
      found.find? (fun r => r.matchPolicy == MATCH_POLICY_STOP) = none ∧
      (∃ cl, s.creditLimit = some cl ∧ ¬(cl < 0) ∧
        ¬(0 < cl ∧ resetBad s.resetSeconds = true)) ∧
      (presentStr s.matchPolicy = none ∨
        ∃ p, presentStr s.matchPolicy = some p ∧
          (p = MATCH_POLICY_STOP ∨ p = MATCH_POLICY_CANARY)) ∧
      ((presentStr s.label = none ∧ c2.ruleLabels = c.ruleLabels) ∨
        (∃ l, presentStr s.label = some l ∧ labelValid l = true ∧
          c.ruleLabels.contains l = false ∧ c2.ruleLabels = c.ruleLabels ++ [l])) ∧
      c2.rules = c.rules ++ [mkRuleFromSpec s op] := by
  unfold Config.addRuleSt at h
  cases hop : s.operation with
  | none =>
    simp only [hop] at h
    injection h with h1 _
    exact absurd h1 (by simp)
  | some op =>
    simp only [hop] at h
    cases hfr : c.findRules op with
    | error e =>
      simp only [hfr] at h
      injection h with h1 _
      exact absurd h1 (by simp)
    | ok found =>
      simp only [hfr] at h
      cases hfind : found.find? (fun r => r.matchPolicy == MATCH_POLICY_STOP) with
      | some m =>
        simp only [hfind] at h
        injection h with h1 _
        exact absurd h1 (by simp)
      | none =>
        simp only [hfind] at h
        cases hcl : s.creditLimit with
        | none =>
          simp only [hcl] at h
          injection h with h1 _
          exact absurd h1 (by simp)
        | some cl =>
          simp only [hcl] at h
          by_cases hneg : cl < 0
          · rw [if_pos hneg] at h
            injection h with h1 _
            exact absurd h1 (by simp)
          · rw [if_neg hneg] at h
            by_cases hrs : 0 < cl ∧ resetBad s.resetSeconds = true
            · rw [if_pos hrs] at h
              injection h with h1 _
              exact absurd h1 (by simp)
            · rw [if_neg hrs] at h
              cases hlb : presentStr s.label with
              | none =>
                simp only [hlb] at h
                obtain ⟨hc2, hpol⟩ := finishRule_ok c s op c2 h
                refine ⟨op, found, rfl, hfr, hfind, ⟨cl, rfl, hneg, hrs⟩, hpol, ?_, ?_⟩
                · exact Or.inl ⟨rfl, by rw [hc2]⟩
                · rw [hc2]
              | some l =>
                simp only [hlb] at h
                by_cases hlv : labelValid l = false
                · rw [if_pos hlv] at h
                  injection h with h1 _
                  exact absurd h1 (by simp)
                · rw [if_neg hlv] at h
                  by_cases hct : c.ruleLabels.contains l = true
                  · rw [if_pos hct] at h
                    injection h with h1 _
                    exact absurd h1 (by simp)
                  · rw [if_neg hct] at h
                    obtain ⟨hc2, hpol⟩ :=
                      finishRule_ok { c with ruleLabels := c.ruleLabels ++ [l] } s op c2 h
                    refine ⟨op, found, rfl, hfr, hfind, ⟨cl, rfl, hneg, hrs⟩, hpol, ?_, ?_⟩
                    · refine Or.inr ⟨l, rfl, by simpa using hlv, by simpa using hct, ?_⟩
                      rw [hc2]
                    · rw [hc2]

/-- `Config.addRule` succeeds exactly when the state transformer raises no
error. -/
lemma addRule_ok_iff (c : Config) (s : RuleSpec) (c2 : Config) :
    Config.addRule c s = Except.ok c2 ↔ Config.addRuleSt c s = (none, c2) := by
  unfold Config.addRule
  cases hst : Config.addRuleSt c s with
  | mk e cpost =>
    cases e with
    | none => simp
    | some e2 => simp

/-- The normalized rule's policy is `stop` or `canary` whenever the policy
switch passed. -/
lemma mkRule_policy_valid (s : RuleSpec) (op : OpMap)
    (hpol : presentStr s.matchPolicy = none ∨
      ∃ p, presentStr s.matchPolicy = some p ∧
        (p = MATCH_POLICY_STOP ∨ p = MATCH_POLICY_CANARY)) :
    (mkRuleFromSpec s op).matchPolicy = MATCH_POLICY_STOP ∨
    (mkRuleFromSpec s op).matchPolicy = MATCH_POLICY_CANARY := by
  simp only [mkRuleFromSpec]
  rcases hpol with hn | ⟨p, hp, hv⟩
  · rw [hn]
    exact Or.inl rfl
  · rw [hp]
    simpa using hv

/-- `buildRules` (the loader loop) preserves "every stored policy is `stop`
or `canary`". -/
lemma buildRules_policiesOk (specs : List RuleSpec) :
    ∀ (c c2 : Config), buildRules c specs = Except.ok c2 →
    (∀ r ∈ c.rules, r.matchPolicy = MATCH_POLICY_STOP ∨ r.matchPolicy = MATCH_POLICY_CANARY) →
    ∀ r ∈ c2.rules, r.matchPolicy = MATCH_POLICY_STOP ∨ r.matchPolicy = MATCH_POLICY_CANARY := by
  induction specs with
  | nil =>
    intro c c2 h hc
    unfold buildRules at h
    simp [List.foldlM, pure, Except.pure] at h
    rwa [← h]
  | cons s rest ih =>
    intro c c2 h hc
    rw [buildRules, List.foldlM] at h
    cases ha : Config.addRule c s with
    | error e =>
      rw [ha] at h
      simp [Bind.bind, Except.bind] at h
    | ok c1 =>
      rw [ha] at h
      have h2 : buildRules c1 rest = Except.ok c2 := by
        simpa [buildRules, Bind.bind, Except.bind] using h
      refine ih c1 c2 h2 ?_
      intro r hr
      obtain ⟨op, found, _, _, _, _, hpol, _, hrules⟩ :=
        addRuleSt_ok_inv c s c1 ((addRule_ok_iff c s c1).mp ha)
      rw [hrules] at hr
      rcases List.mem_append.mp hr with h1 | h1
      · exact hc r h1
      · rw [List.mem_singleton.mp h1]
        exact mkRule_policy_valid s op hpol

/-- A successful `configFromSpecs` is a successful loader loop from an empty
config followed by a successful `validate`. -/
lemma configFromSpecs_ok (specs : List RuleSpec) (c : Config)
    (h : configFromSpecs specs = Except.ok c) :
    buildRules Config.new specs = Except.ok c ∧ c.validate = none := by
  unfold configFromSpecs at h
  cases hb : buildRules Config.new specs with
  | error e =>
    simp only [hb] at h
    exact absurd h (by simp)
  | ok c1 =>
    simp only [hb] at h
    cases hv : c1.validate with
    | some e =>
      simp only [hv] at h
      exact absurd h (by simp)
    | none =>
      simp only [hv] at h
      rw [← Except.ok.inj h]
      exact ⟨rfl, hv⟩

/-- `matchValue` can only throw the regex compilation error. -/
lemma matchValue_error (pv : String) (a : Option String) (e : ConfigError)
    (h : matchValue pv a = Except.error e) : e = ConfigError.regexError := by
  unfold matchValue at h
  by_cases h1 : pv = "*"
  · rw [if_pos h1] at h
    exact absurd h (by simp)
  · rw [if_neg h1] at h
    by_cases h2 : isGlobValue pv = true
    · rw [if_pos h2] at h
      cases hp : parseGlob pv with
      | none =>
        simp only [hp] at h
        exact (Except.error.inj h).symm
      | some atoms =>
        simp only [hp] at h
        exact absurd h (by simp)
    · rw [if_neg h2] at h
      exact absurd h (by simp)

/-- The key loop can only throw the regex compilation error. -/
lemma keysMatch_error (ks : List (String × String)) (op : OpMap) :
    ∀ e : ConfigError, keysMatch ks op = Except.error e → e = ConfigError.regexError := by
  induction ks with
  | nil =>
    intro e h
    simp [keysMatch] at h
  | cons kv rest ih =>
    intro e h
    obtain ⟨k, pv⟩ := kv
    rw [keysMatch] at h
    cases hm : matchValue pv (op.lookup k) with
    | error e2 =>
      simp only [hm] at h
      rw [← Except.error.inj h]
      exact matchValue_error pv (op.lookup k) e2 hm
    | ok b =>
      simp only [hm] at h
      cases b with
      | false => exact absurd h (by simp)
      | true => exact ih e h

/-- If every stored rule has a non-empty policy, the "Rule does not define a
match policy" branch of the rule loop is unreachable. -/
lemma findRulesGo_no_bug (rules : List Rule) (op : OpMap) :
    ∀ acc, (∀ r ∈ rules, r.matchPolicy ≠ "") →
    findRulesGo rules op acc ≠ Except.error ConfigError.noMatchPolicyBug := by
  induction rules with
  | nil =>
    intro acc hval
    simp [findRulesGo]
  | cons r rest ih =>
    intro acc hval hrun
    rw [findRulesGo] at hrun
    rw [if_neg (hval r (by simp))] at hrun
    cases hm : keysMatch r.operation op with
    | error e =>
      simp only [hm] at hrun
      have h2 := keysMatch_error r.operation op e hm
      rw [h2] at hrun
      exact absurd (Except.error.inj hrun) (by simp)
    | ok b =>
      simp only [hm] at hrun
      cases b with
      | false => exact ih acc (fun x hx => hval x (by simp [hx])) hrun
      | true =>
        by_cases hstop : r.matchPolicy = MATCH_POLICY_STOP
        · rw [if_pos hstop] at hrun
          exact absurd hrun (by simp)
        · rw [if_neg hstop] at hrun
          exact ih (acc ++ [r]) (fun x hx => hval x (by simp [hx])) hrun

/-- Claim C10: every rule appended by `addRule` has a normalized match
policy — a missing or empty `matchPolicy` becomes `stop`, anything else
must be `stop` or `canary` — so for a config built only through the loader
(`addRule` then `validate`) the internal "Rule does not define a match
policy" error branch of `findRules` is unreachable. -/
theorem C10_match_policy_normalized :
    (∀ (c : Config) (s : RuleSpec) (c2 : Config), Config.addRule c s = Except.ok c2 →
      ∃ r, c2.rules = c.rules ++ [r] ∧
        (r.matchPolicy = MATCH_POLICY_STOP ∨ r.matchPolicy = MATCH_POLICY_CANARY) ∧
        (presentStr s.matchPolicy = none → r.matchPolicy = MATCH_POLICY_STOP)) ∧
    (∀ (specs : List RuleSpec) (c : Config), configFromSpecs specs = Except.ok c →
      ∀ op : OpMap, c.findRules op ≠ Except.error ConfigError.noMatchPolicyBug) := by
  constructor
  · intro c s c2 h
    obtain ⟨op, found, _, _, _, _, hpol, _, hrules⟩ :=
      addRuleSt_ok_inv c s c2 ((addRule_ok_iff c s c2).mp h)
    refine ⟨mkRuleFromSpec s op, hrules, mkRule_policy_valid s op hpol, ?_⟩
    intro hn
    simp [mkRuleFromSpec, hn]
  · intro specs c h op
    obtain ⟨hb, _⟩ := configFromSpecs_ok specs c h
    have hpols := buildRules_policiesOk specs Config.new c hb (by simp [Config.new])
    refine findRulesGo_no_bug c.rules op [] ?_
    intro r hr
    rcases hpols r hr with h1 | h1 <;> rw [h1] <;> decide

/-- Witness for C10: the default config built from `defaultSpec`. -/
theorem C10_witness :
    (∃ r, defaultConfig.rules = Config.new.rules ++ [r] ∧
      (r.matchPolicy = MATCH_POLICY_STOP ∨ r.matchPolicy = MATCH_POLICY_CANARY) ∧
      (presentStr defaultSpec.matchPolicy = none → r.matchPolicy = MATCH_POLICY_STOP)) ∧
    defaultConfig.findRules [] ≠ Except.error ConfigError.noMatchPolicyBug :=
  ⟨C10_match_policy_normalized.1 Config.new defaultSpec defaultConfig (by decide),
   C10_match_policy_normalized.2 [defaultSpec] defaultConfig (by decide) []⟩

/-! ## The empty-pattern / unreachability invariant -/

/-- If a normal run of the rule loop records no `stop` rule, then no
empty-pattern `stop` rule can be present at all: such a rule matches every
operation, and the loop only ends without a recorded `stop` match after
visiting (and rejecting) every rule. -/
lemma findRulesGo_emptyStop (rules : List Rule) (op : OpMap) :
    ∀ (acc l : List Rule), findRulesGo rules op acc = Except.ok l →
    l.find? (fun r => r.matchPolicy == MATCH_POLICY_STOP) = none →
    ∀ m ∈ rules, ¬(m.operation = [] ∧ m.matchPolicy = MATCH_POLICY_STOP) := by
  induction rules with
  | nil =>
    intro acc l _ _ m hm
    simp at hm
  | cons r rest ih =>
    intro acc l hrun hfind m hm hprop
    obtain ⟨hmop, hmpol⟩ := hprop
    rw [findRulesGo] at hrun
    by_cases hpr : r.matchPolicy = ""
    · rw [if_pos hpr] at hrun
      exact absurd hrun (by simp)
    · rw [if_neg hpr] at hrun
      cases hkm : keysMatch r.operation op with
      | error e =>
        simp only [hkm] at hrun
        exact absurd hrun (by simp)
      | ok b =>
        simp only [hkm] at hrun
        rcases List.mem_cons.mp hm with hmr | hmrest
        · -- the empty-pattern stop rule is the rule at the head
          subst hmr
          rw [hmop] at hkm
          have hb : b = true := Except.ok.inj (hkm.symm.trans (by rfl))
          subst hb
          rw [if_pos hmpol] at hrun
          have hl : acc ++ [m] = l := Except.ok.inj hrun
          have hmem : m ∈ l := by
            rw [← hl]
            simp
          have := (List.find?_eq_none.mp hfind) m hmem
          simp [hmpol] at this
        · cases b with
          | false => exact ih acc l hrun hfind m hmrest ⟨hmop, hmpol⟩
          | true =>
            by_cases hstop : r.matchPolicy = MATCH_POLICY_STOP
            · rw [if_pos hstop] at hrun
              have hl : acc ++ [r] = l := Except.ok.inj hrun
              have hmem : r ∈ l := by
                rw [← hl]
                simp
              have := (List.find?_eq_none.mp hfind) r hmem
              simp [hstop] at this
            · rw [if_neg hstop] at hrun
              exact ih (acc ++ [r]) l hrun hfind m hmrest ⟨hmop, hmpol⟩

/-- A successful `addRule` call implies the config held no empty-pattern
`stop` rule beforehand (that rule would mask the new one). -/
lemma addRule_ok_no_emptyStop (c : Config) (s : RuleSpec) (c2 : Config)
    (h : Config.addRuleSt c s = (none, c2)) :
    ∀ m ∈ c.rules, ¬(m.operation = [] ∧ m.matchPolicy = MATCH_POLICY_STOP) := by
  obtain ⟨op, found, hop, hfr, hfind, _, _, _, _⟩ := addRuleSt_ok_inv c s c2 h
  exact findRulesGo_emptyStop c.rules op [] found hfr hfind

/-- A non-trivial loader run ends with a successful `addRule`. -/
lemma buildRules_last (specs : List RuleSpec) :
    ∀ (c c2 : Config), buildRules c specs = Except.ok c2 →
    c2 = c ∨ ∃ cp s, Config.addRuleSt cp s = (none, c2) := by
  induction specs with
  | nil =>
    intro c c2 h
    left
    unfold buildRules at h
    simp [List.foldlM, pure, Except.pure] at h
    exact h.symm
  | cons s rest ih =>
    intro c c2 h
    rw [buildRules, List.foldlM] at h
    cases ha : Config.addRule c s with
    | error e =>
      rw [ha] at h
      simp [Bind.bind, Except.bind] at h
    | ok c1 =>
      rw [ha] at h
      have h2 : buildRules c1 rest = Except.ok c2 := by
        simpa [buildRules, Bind.bind, Except.bind] using h
      rcases ih c1 c2 h2 with heq | hex
      · right
        refine ⟨c, s, ?_⟩
        rw [heq]
        exact (addRule_ok_iff c s c1).mp ha
      · right
        exact hex

/-- Counterexample to claim C2 as stated: construction plus validation
accepts `[empty-pattern canary, empty-pattern stop]`, a rule set containing
an empty-pattern rule whose matchPolicy is `canary` (not `stop`), which is
not the last rule, and which is not the only empty-pattern rule. -/
theorem C2_counterexample :
    configFromSpecs [emptyCanarySpec, defaultSpec] = Except.ok emptyCanaryConfig ∧
    emptyCanaryConfig.rules.map Rule.operation = [[], []] ∧
    emptyCanaryConfig.rules.get? 0 = some emptyCanaryRule ∧
    emptyCanaryRule.operation = [] ∧
    emptyCanaryRule.matchPolicy ≠ MATCH_POLICY_STOP := by
  refine ⟨by decide, by decide, by decide, rfl, by decide⟩

/-- Claim C2 (amended): in every rule set accepted by construction plus
final validation, any rule whose pattern is empty **and whose matchPolicy
is `stop`** sits at the last index — hence it is the last rule and the only
empty-pattern `stop` rule.  (Empty-pattern `canary` rules may occur
elsewhere, need not be last and need not be unique, as the counterexample
shows.) -/
theorem C2_amended_empty_stop_is_last :
    ∀ (specs : List RuleSpec) (c : Config), configFromSpecs specs = Except.ok c →
    ∀ (i : Nat) (r : Rule), c.rules.get? i = some r →
      r.operation = [] → r.matchPolicy = MATCH_POLICY_STOP →
      i + 1 = c.rules.length := by
  intro specs c h i r hget hop hpol
  obtain ⟨hb, hv⟩ := configFromSpecs_ok specs c h
  rcases buildRules_last specs Config.new c hb with heq | ⟨cp, s, hadd⟩
  · rw [heq] at hv
    simp [Config.validate, Config.new] at hv
  · have hnoES := addRule_ok_no_emptyStop cp s c hadd
    obtain ⟨op2, found2, _, _, _, _, _, _, hrules⟩ := addRuleSt_ok_inv cp s c hadd
    have hilen : i < c.rules.length := by
      by_contra hge
      rw [List.get?_eq_none.mpr (by omega)] at hget
      exact Option.noConfusion hget
    have hlen : c.rules.length = cp.rules.length + 1 := by
      rw [hrules]
      simp
    by_cases hlt : i < cp.rules.length
    · have hget2 : cp.rules.get? i = some r := by
        rw [hrules, List.get?_append hlt] at hget
        exact hget
      have hmem : r ∈ cp.rules := List.get?_mem hget2
      exact absurd ⟨hop, hpol⟩ (hnoES r hmem)
    · omega

/-- Witness for the amended C2 on the one-rule default config. -/
theorem C2_amended_witness :
    configFromSpecs [defaultSpec] = Except.ok defaultConfig ∧
    0 + 1 = defaultConfig.rules.length :=
  ⟨by decide, C2_amended_empty_stop_is_last [defaultSpec] defaultConfig (by decide)
    0 defaultRule (by decide) rfl rfl⟩

/-- Claim C6: `addRule` rejects an unreachable rule.  If the new rule's own
pattern, treated as an incoming operation, is (fully) matched by some rule
of the `findRules` result with matchPolicy `stop`, then `addRule` fails
with the unreachable-rule error carrying the masking `stop` rule, and the
config is left unchanged (the rule is not appended).  In particular, once
the config holds an empty-pattern `stop` rule, adding **any** rule fails
and leaves the config unchanged. -/
theorem C6_unreachable_rule_rejected :
    (∀ (c : Config) (s : RuleSpec) (op : OpMap) (found : List Rule) (m : Rule),
      s.operation = some op →
      c.findRules op = Except.ok found →
      m ∈ found → m.matchPolicy = MATCH_POLICY_STOP →
      ∃ m2, m2 ∈ found ∧ m2.matchPolicy = MATCH_POLICY_STOP ∧
        Config.addRuleSt c s = (some (ConfigError.unreachableRule m2), c)) ∧
    (∀ (c : Config) (s : RuleSpec),
      (∃ m ∈ c.rules, m.operation = [] ∧ m.matchPolicy = MATCH_POLICY_STOP) →
      (Config.addRuleSt c s).1 ≠ none ∧ (Config.addRuleSt c s).2 = c) := by
  constructor
  · intro c s op found m hop hfr hm hpol
    have hsome : (found.find? (fun r => r.matchPolicy == MATCH_POLICY_STOP)).isSome := by
      rw [List.find?_isSome]
      exact ⟨m, hm, by simp [hpol]⟩
    obtain ⟨m2, hfind⟩ := Option.isSome_iff_exists.mp hsome
    refine ⟨m2, List.mem_of_find?_eq_some hfind, ?_, ?_⟩
    · have := List.find?_some hfind
      simpa using this
    · unfold Config.addRuleSt
      simp only [hop, hfr, hfind]
  · intro c s hes
    cases hop : s.operation with
    | none =>
      unfold Config.addRuleSt
      simp only [hop]
      exact ⟨by simp, by simp⟩
    | some op =>
      cases hfr : c.findRules op with
      | error e =>
        unfold Config.addRuleSt
        simp only [hop, hfr]
        exact ⟨by simp, by simp⟩
      | ok found =>
        cases hfind : found.find? (fun r => r.matchPolicy == MATCH_POLICY_STOP) with
        | none =>
          obtain ⟨m, hm, hprop⟩ := hes
          exact absurd hprop (findRulesGo_emptyStop c.rules op [] found hfr hfind m hm)
        | some m2 =>
          unfold Config.addRuleSt
          simp only [hop, hfr, hfind]
          exact ⟨by simp, by simp⟩

/-- Witness for C6: adding the `{op: "x"}` rule after the default (empty
pattern, `stop`) is rejected with the default cited as the mask. -/
theorem C6_witness :
    (∃ m2, m2 ∈ [defaultRule] ∧ m2.matchPolicy = MATCH_POLICY_STOP ∧
      Config.addRuleSt defaultConfig opXSpec =
        (some (ConfigError.unreachableRule m2), defaultConfig)) ∧
    (Config.addRuleSt defaultConfig opXSpec).1 ≠ none :=
  ⟨C6_unreachable_rule_rejected.1 defaultConfig opXSpec [("op", "x")] [defaultRule] defaultRule
      rfl (by decide) (by decide) rfl,
   (C6_unreachable_rule_rejected.2 defaultConfig opXSpec
      ⟨defaultRule, by decide, rfl, rfl⟩).1⟩

/-! ## Dynamic reload (claim C1) -/

/-- Claim C1 evaluated at a failing input.  The active config holds the
default rule.  A reload cycle arrives whose static file parses fine but
whose dynamic rules contain a declaration with `creditLimit: -1`, so the
cycle fails with a validation error from `addRule`.  Because
`processNewRules` clears `config.rules`/`config.ruleLabels` **in place**
before rebuilding, the failed cycle leaves the active config empty:
`findRules` afterwards returns `[]` for every operation where it previously
returned the default rule — the previously active rule set is *not* kept. -/
theorem C1_failed_reload_mutates_active_config :
    processNewRules defaultConfig false (some staticRawConfig) (some [badCreditSpec]) =
      (some ConfigError.invalidCreditLimit, Config.new) ∧
    Config.findRules Config.new [] = Except.ok [] ∧
    Config.findRules defaultConfig [] = Except.ok [defaultRule] ∧
    ([] : List Rule) ≠ [defaultRule] := by
  refine ⟨by decide, by decide, by decide, by decide⟩

/-! ## Serialization round trip (claim C7) -/

/-- Counterexample to claim C7 as stated: the accepted rule set
`[empty-pattern canary, empty-pattern stop]` serializes with **both**
empty-pattern rules written to `data.default` (the second overwrites the
first), so reloading the serialized form drops the canary rule and
`findRules` loses a result. -/
theorem C7_roundtrip_counterexample :
    configFromSpecs [emptyCanarySpec, defaultSpec] = Except.ok emptyCanaryConfig ∧
    roundTrip emptyCanaryConfig = Except.ok defaultConfig ∧
    emptyCanaryConfig.findRules [] = Except.ok [emptyCanaryRule, defaultRule] ∧
    defaultConfig.findRules [] = Except.ok [defaultRule] ∧
    ([emptyCanaryRule, defaultRule] : List Rule) ≠ [defaultRule] := by
  refine ⟨by decide, by decide, by decide, by decide, by decide⟩

/-- The spec view of a stored rule has exactly the stored fields (the
pattern re-normalization is the identity on it). -/
lemma respec_fields (r : Rule) :
    (respec r).operation = some r.operation ∧ (respec r).creditLimit = r.creditLimit ∧
    (respec r).resetSeconds = r.resetSeconds ∧ (respec r).actorField = r.actorField ∧
    (respec r).matchPolicy = some r.matchPolicy ∧ (respec r).label = r.label ∧
    (respec r).comment = r.comment :=
  ⟨rfl, rfl, rfl, rfl, rfl, rfl, rfl⟩

/-- Replaying a successfully added rule through `addRule` (as its
serialized spec view) succeeds and produces the same config: every field
of the stored rule is already normalized, so re-normalization is the
identity and every validation step passes again. -/
lemma addRule_replay (c : Config) (s : RuleSpec) (c2 : Config)
    (h : Config.addRuleSt c s = (none, c2)) :
    ∃ r, c2.rules = c.rules ++ [r] ∧ Config.addRuleSt c (respec r) = (none, c2) := by
  obtain ⟨op, found, hop, hfr, hfind, ⟨cl, hcl, hneg, hrs⟩, hpol, hlab, hrules⟩ :=
    addRuleSt_ok_inv c s c2 h
  refine ⟨mkRuleFromSpec s op, hrules, ?_⟩
  have hq := mkRule_policy_valid s op hpol
  have e1 : (respec (mkRuleFromSpec s op)).operation = some op := rfl
  have e2 : (respec (mkRuleFromSpec s op)).creditLimit = some cl := by
    show s.creditLimit = some cl
    exact hcl
  have e3 : (respec (mkRuleFromSpec s op)).resetSeconds = s.resetSeconds := rfl
  have e4 : presentStr (respec (mkRuleFromSpec s op)).label = presentStr s.label := by
    show presentStr (presentStr s.label) = presentStr s.label
    exact presentStr_idem s.label
  have e5 : presentStr (respec (mkRuleFromSpec s op)).matchPolicy =
      some ((presentStr s.matchPolicy).getD MATCH_POLICY_STOP) := by
    show presentStr (some ((presentStr s.matchPolicy).getD MATCH_POLICY_STOP)) = _
    rcases hpol with hn | ⟨p, hp, hv⟩
    · rw [hn]
      decide
    · rw [hp]
      rcases hv with h1 | h1 <;> rw [h1] <;> decide
  have hpolR : presentStr (respec (mkRuleFromSpec s op)).matchPolicy = none ∨
      ∃ p, presentStr (respec (mkRuleFromSpec s op)).matchPolicy = some p ∧
        (p = MATCH_POLICY_STOP ∨ p = MATCH_POLICY_CANARY) :=
    Or.inr ⟨(presentStr s.matchPolicy).getD MATCH_POLICY_STOP, e5, hq⟩
  have emk : mkRuleFromSpec (respec (mkRuleFromSpec s op)) op = mkRuleFromSpec s op := by
    show Rule.mk op s.creditLimit s.resetSeconds (presentStr (presentStr s.actorField))
        ((presentStr (some ((presentStr s.matchPolicy).getD MATCH_POLICY_STOP))).getD
          MATCH_POLICY_STOP)
        (presentStr (presentStr s.label)) (presentStr (presentStr s.comment)) = _
    rw [presentStr_idem, presentStr_idem, presentStr_idem]
    rw [show (presentStr (some ((presentStr s.matchPolicy).getD MATCH_POLICY_STOP))).getD
          MATCH_POLICY_STOP = (presentStr s.matchPolicy).getD MATCH_POLICY_STOP from ?_]
    · rfl
    · rcases hpol with hn | ⟨p, hp, hv⟩
      · rw [hn]
        decide
      · rw [hp]
        rcases hv with h1 | h1 <;> rw [h1] <;> decide
  unfold Config.addRuleSt
  simp only [e1, hfr, hfind, e2, e3]
  rw [if_neg hneg, if_neg hrs]
  cases hpl : presentStr s.label with
  | none =>
    simp only [e4, hpl]
    rw [finishRule_push c (respec (mkRuleFromSpec s op)) op hpolR, emk]
    rcases hlab with ⟨_, hl⟩ | ⟨l, hpl2, _, _, _⟩
    · cases c2 with
      | mk r2 l2 =>
        simp only [Prod.mk.injEq, Config.mk.injEq]
        exact ⟨trivial, hrules.symm, hl.symm⟩
    · rw [hpl] at hpl2
      exact Option.noConfusion hpl2
  | some l =>
    simp only [e4, hpl]
    rcases hlab with ⟨hpl2, _⟩ | ⟨l2, hpl2, hlv, hct, hl⟩
    · rw [hpl] at hpl2
      exact Option.noConfusion hpl2
    · have hll : l2 = l := by
        rw [hpl] at hpl2
        exact (Option.some.inj hpl2).symm
      subst hll
      rw [if_neg (by rw [hlv]; decide), if_neg (by rw [hct]; decide)]
      rw [finishRule_push { c with ruleLabels := c.ruleLabels ++ [l2] }
        (respec (mkRuleFromSpec s op)) op hpolR, emk]
      cases c2 with
      | mk r2 lb2 =>
        simp only [Prod.mk.injEq, Config.mk.injEq]
        exact ⟨trivial, hrules.symm, hl.symm⟩

/-- Replaying a whole successful loader run from the rules it appended
succeeds and rebuilds the identical config. -/
lemma buildRules_replay (specs : List RuleSpec) :
    ∀ (c0 c1 : Config), buildRules c0 specs = Except.ok c1 →
    ∃ t, c1.rules = c0.rules ++ t ∧ buildRules c0 (t.map respec) = Except.ok c1 := by
  induction specs with
  | nil =>
    intro c0 c1 h
    have h0 : c0 = c1 := by
      unfold buildRules at h
      simpa [List.foldlM, pure, Except.pure] using h
    subst h0
    exact ⟨[], by simp, rfl⟩
  | cons s rest ih =>
    intro c0 c1 h
    rw [buildRules, List.foldlM] at h
    cases ha : Config.addRule c0 s with
    | error e =>
      rw [ha] at h
      simp [Bind.bind, Except.bind] at h
    | ok cm =>
      rw [ha] at h
      have h2 : buildRules cm rest = Except.ok c1 := by
        simpa [buildRules, Bind.bind, Except.bind] using h
      obtain ⟨t, htr, hreplay⟩ := ih cm c1 h2
      obtain ⟨r, hrules, hradd⟩ := addRule_replay c0 s cm ((addRule_ok_iff c0 s cm).mp ha)
      refine ⟨r :: t, ?_, ?_⟩
      · rw [htr, hrules]
        simp
      · rw [List.map_cons, buildRules, List.foldlM]
        rw [(addRule_ok_iff c0 (respec r) cm).mpr hradd]
        simpa [Bind.bind, Except.bind, buildRules] using hreplay

/-- The serialization fold over rules with non-empty patterns just appends
their spec views to `overrides`. -/
lemma toJsonData_go (rs : List Rule) :
    ∀ acc : RawConfig, (∀ r ∈ rs, r.operation ≠ []) →
    rs.foldl (fun acc r =>
      if r.operation = ([] : OpMap) then { acc with default := some (ruleToSpec r) }
      else { acc with overrides := acc.overrides ++ [ruleToSpec r] }) acc =
    { overrides := acc.overrides ++ rs.map ruleToSpec, default := acc.default } := by
  induction rs with
  | nil =>
    intro acc h
    simp
  | cons r rest ih =>
    intro acc h
    rw [List.foldl_cons, if_neg (h r (by simp))]
    rw [ih _ (fun x hx => h x (by simp [hx]))]
    simp

/-- `toJson` on a config whose only empty-pattern rule is the final one:
the overrides are the initial rules' spec views in order and the default is
the final rule's spec view. -/
lemma toJsonData_unique (c : Config) (init : List Rule) (d : Rule)
    (hsplit : c.rules = init ++ [d]) (hinit : ∀ r ∈ init, r.operation ≠ [])
    (hd : d.operation = []) :
    toJsonData c = { overrides := init.map ruleToSpec, default := some (ruleToSpec d) } := by
  unfold toJsonData
  rw [hsplit, List.foldl_append]
  rw [toJsonData_go init _ hinit]
  rw [List.foldl_cons, if_pos hd, List.foldl_nil]
  simp

/-- Claim C7 (amended): for every rule set built by successful construction
**containing exactly one empty-pattern rule**, reloading the serialized
form succeeds and yields the identical rule set — hence identical
`findRules` results for every operation.  (With two empty-pattern rules the
round trip silently drops all but the last, see the counterexample.) -/
theorem C7_roundtrip_amended :
    ∀ (specs : List RuleSpec) (c : Config), configFromSpecs specs = Except.ok c →
    (c.rules.filter (fun r => r.operation == ([] : OpMap))).length = 1 →
    roundTrip c = Except.ok c ∧
    ∀ (c2 : Config), roundTrip c = Except.ok c2 →
      ∀ op : OpMap, c2.findRules op = c.findRules op := by
  intro specs c h huniq
  obtain ⟨hb, hv⟩ := configFromSpecs_ok specs c h
  obtain ⟨d, hd⟩ : ∃ d, c.rules.getLast? = some d := by
    cases hg : c.rules.getLast? with
    | none =>
      rw [List.getLast?_eq_none] at hg
      simp [Config.validate, hg] at hv
    | some d => exact ⟨d, rfl⟩
  obtain ⟨init, hsplit⟩ := List.getLast?_eq_some_iff.mp hd
  have hdop : d.operation = [] := by
    have hv2 := hv
    unfold Config.validate at hv2
    simp only [hd] at hv2
    by_cases hx : d.operation = ([] : OpMap)
    · exact hx
    · rw [if_neg hx] at hv2
      exact Option.noConfusion hv2
  have hinit : ∀ r ∈ init, r.operation ≠ [] := by
    have hfl : (c.rules.filter (fun r => r.operation == ([] : OpMap))) =
        init.filter (fun r => r.operation == ([] : OpMap)) ++ [d] := by
      rw [hsplit, List.filter_append]
      simp [hdop]
    rw [hfl, List.length_append] at huniq
    have hzero : (init.filter (fun r => r.operation == ([] : OpMap))).length = 0 := by
      simpa using huniq
    intro r hr hof
    have : r ∈ init.filter (fun r => r.operation == ([] : OpMap)) :=
      List.mem_filter.mpr ⟨hr, by simp [hof]⟩
    rw [List.length_eq_zero.mp hzero] at this
    simp at this
  have htj : toJsonData c =
      { overrides := init.map ruleToSpec, default := some (ruleToSpec d) } :=
    toJsonData_unique c init d hsplit hinit hdop
  have hdecls : (init.map ruleToSpec ++ [ruleToSpec d]).map specOfRaw = c.rules.map respec := by
    rw [hsplit]
    simp only [List.map_append, List.map_map, List.map_cons, List.map_nil]
    rfl
  obtain ⟨t, htr, hreplay⟩ := buildRules_replay specs Config.new c hb
  have ht : t = c.rules := by
    have h3 : c.rules = t := by simpa [Config.new] using htr
    exact h3.symm
  rw [ht] at hreplay
  have hrt : roundTrip c = Except.ok c := by
    unfold roundTrip fromRawConfig
    rw [htj]
    show configFromSpecs ((init.map ruleToSpec ++ [ruleToSpec d]).map specOfRaw) = Except.ok c
    rw [hdecls]
    unfold configFromSpecs
    simp only [hreplay, hv]
  refine ⟨hrt, ?_⟩
  intro c2 h2 op
  rw [hrt] at h2
  rw [← Except.ok.inj h2]

/-- Witness for the amended C7 on the one-rule default config. -/
theorem C7_amended_witness :
    roundTrip defaultConfig = Except.ok defaultConfig ∧
    defaultConfig.findRules [] = defaultConfig.findRules [] :=
  ⟨(C7_roundtrip_amended [defaultSpec] defaultConfig (by decide) (by decide)).1,
   (C7_roundtrip_amended [defaultSpec] defaultConfig (by decide) (by decide)).2 defaultConfig
     (C7_roundtrip_amended [defaultSpec] defaultConfig (by decide) (by decide)).1 []⟩
